import Mathlib

/-!
Verification model of the exup unitypackage extractor (src/main.rs).

The program is a single `main` loop plus one helper `extract_task`.  The
embedding below translates it shallowly:

* archive entries become `UpEntry` values (byte contents are modelled as
  `String`s, an injective renaming of byte sequences that is sufficient for
  every property below);
* the mutable loop variables (`prefix`, `asset_bytes`, `asset_meta_bytes`,
  `asset_path`, `asset_met`, `asset_meta_met`, `asset_path_met`) become the
  fields of `UpState`, and one iteration of the `for entry in ...` loop
  becomes the pure function `step`;
* `tokio::fs` calls are modelled as an `FsOracle` (which decides whether a
  given operation succeeds) together with a trace of attempted operations;
* the `Semaphore` is modelled as a counter of available permits (`Sem`);
  an `OwnedSemaphorePermit` is a RAII value that Rust drops on every exit
  path of its owning scope, so the model records `permit_released` on every
  branch of a task;
* the whole run (decode loop plus spawned tasks) becomes `runMain`, which
  threads the assembler state and accumulates the filesystem trace and the
  permit-acquisition/release ledger.

The Rust source field `prefix` is renamed `pfx` here because `prefix` is a
reserved Lean keyword; all other names follow the source.
-/

/-- One archive entry: its path and its (byte) content.  Mirrors the
`(entry_path_str, entry contents)` pair read from the tar stream. -/
structure UpEntry where
  path : String
  content : String
deriving DecidableEq, Repr

/-- The relevant command-line arguments of `Arguments` in src/main.rs.
`pfx` is the `--prefix` option (renamed from `prefix`, a Lean keyword). -/
structure Arguments where
  root_directory : String
  pfx : Option String
  meta : Bool
  dry : Bool
  max_concurrency : Nat
deriving DecidableEq, Repr

/-- The mutable state of the decode loop in `main` (src/main.rs lines 55-62):
the active grouping path `pfx` and the in-progress asset record. -/
structure UpState where
  pfx : String
  asset_bytes : String
  asset_meta_bytes : String
  asset_path : String
  asset_met : Bool
  asset_meta_met : Bool
  asset_path_met : Bool
deriving DecidableEq, Repr

/-- Initial loop state: empty strings, and the three seen-flags initialised
to `true` exactly as in the source (lines 60-62). -/
def initState : UpState :=
  { pfx := "", asset_bytes := "", asset_meta_bytes := "", asset_path := "",
    asset_met := true, asset_meta_met := true, asset_path_met := true }

/-- The errors `main` can raise from the decode loop via `bail!`. -/
inductive UpError where
  | malformedArchive (path : String)
  | unknownMember (filename : String)
deriving DecidableEq, Repr

/-- Payload handed to a spawned task at dispatch time: the resolved output
path, the accumulated asset bytes, and `args.meta.then_some(asset_meta_bytes)`. -/
structure Dispatch where
  asset_path : String
  asset_bytes : String
  asset_meta : Option String
deriving DecidableEq, Repr

/-- Character-list test that `p` is a leading segment of `s`; this is the
kernel-computable rendering of Rust `str::starts_with`. -/
def is_pfx_list : List Char → List Char → Bool
  | [], _ => true
  | _ :: _, [] => false
  | a :: as, b :: bs => a == b && is_pfx_list as bs

/-- Rust `str::starts_with(pre)` on `s`. -/
def str_starts (pre s : String) : Bool :=
  is_pfx_list pre.data s.data

/-- Rust `str::strip_prefix(pre)` on `s`: `Some` of the remainder exactly
when `s` starts with `pre`. -/
def str_strip (pre s : String) : Option String :=
  if str_starts pre s = true then some (String.mk (s.data.drop pre.data.length)) else none

/-- Split a character list at `'/'` separators, accumulating the current
component in reverse.  Kernel-computable rendering of path splitting. -/
def split_slash_rec : List Char → List Char → List String
  | [], acc => [String.mk acc.reverse]
  | c :: rest, acc =>
    if c = '/' then String.mk acc.reverse :: split_slash_rec rest []
    else split_slash_rec rest (c :: acc)

/-- The normalized components of a path string, as produced by Rust
`Path::components`: split at `/` and drop empty components (so repeated or
trailing separators are ignored).  The inputs in this program contain no
`.` or `..` components, so those normalization rules are not modelled. -/
def path_components (s : String) : List String :=
  (split_slash_rec s.data []).filter (fun c => c != "")

/-- Component-list counterpart of `is_pfx_list` for strings. -/
def is_pfx_comps : List String → List String → Bool
  | [], _ => true
  | _ :: _, [] => false
  | a :: as, b :: bs => a == b && is_pfx_comps as bs

/-- Rebuild a path string from components. -/
def join_components (cs : List String) : String :=
  String.intercalate "/" cs

/-- Rust `Path::strip_prefix`: succeeds exactly when the components of `pre`
are a leading segment of the components of `s`, returning the path formed by
the remaining components.  This is component-aware, not raw-string, stripping. -/
def path_strip (pre s : String) : Option String :=
  if is_pfx_comps (path_components pre) (path_components s) = true then
    some (join_components ((path_components s).drop (path_components pre).length))
  else none

/-- The path resolution done at dispatch time (src/main.rs lines 112-119):
without `--prefix` the logical path is used verbatim; with `--prefix` it is
stripped component-wise, and `none` means the record is skipped. -/
def resolvePath (filt : Option String) (asset_path : String) : Option String :=
  match filt with
  | none => some asset_path
  | some extract_pfx => path_strip extract_pfx asset_path

/-- The fresh state installed at a group boundary (src/main.rs lines 75-88):
the entry's own path becomes the active grouping path and the record is reset
to empty with all seen-flags false. -/
def freshFromPath (p : String) : UpState :=
  { pfx := p, asset_bytes := "", asset_meta_bytes := "", asset_path := "",
    asset_met := false, asset_meta_met := false, asset_path_met := false }

/-- The `match filename` arm of the loop (src/main.rs lines 91-108).
`read_to_end` / `read_to_string` append to the destination buffer, hence the
`++`.  An unrecognized member name is the `UnknownMember` failure. -/
def applyMember (s : UpState) (filename : String) (content : String) :
    Except UpError UpState :=
  if filename = "asset" then
    .ok { s with asset_met := true, asset_bytes := s.asset_bytes ++ content }
  else if filename = "asset.meta" then
    .ok { s with asset_meta_met := true, asset_meta_bytes := s.asset_meta_bytes ++ content }
  else if filename = "pathname" then
    .ok { s with asset_path_met := true, asset_path := s.asset_path ++ content }
  else if filename = "preview.png" then
    .ok s
  else .error (.unknownMember filename)

/-- The record-complete test `asset_met && asset_meta_met && asset_path_met`. -/
def allMet (s : UpState) : Bool :=
  s.asset_met && s.asset_meta_met && s.asset_path_met

/-- The completion check at the end of a loop iteration (src/main.rs lines
111-141).  When the record is complete and the path resolves, a task payload
is dispatched and the source clears `prefix`, `asset_bytes` and
`asset_meta_bytes` (but neither the seen-flags nor `asset_path`); when the
path does not resolve the source executes `continue`, leaving the whole state
untouched. -/
def completeCheck (args : Arguments) (s : UpState) : UpState × Option Dispatch :=
  if allMet s = true then
    match resolvePath args.pfx s.asset_path with
    | none => (s, none)
    | some out =>
      ({ s with pfx := "", asset_bytes := "", asset_meta_bytes := "" },
       some { asset_path := out, asset_bytes := s.asset_bytes,
              asset_meta := if args.meta = true then some s.asset_meta_bytes else none })
  else (s, none)

/-- One iteration of `for entry in up_archive.entries()` (src/main.rs lines
68-142): boundary test, defensive strip, member dispatch, completion check.
Returns the successor state and the dispatched payload, if any. -/
def step (args : Arguments) (s : UpState) (e : UpEntry) :
    Except UpError (UpState × Option Dispatch) :=
  if s.pfx = "" ∨ str_starts s.pfx e.path = false then
    .ok (freshFromPath e.path, none)
  else
    match str_strip s.pfx e.path with
    | none => .error (.malformedArchive e.path)
    | some filename =>
      match applyMember s filename e.content with
      | .error er => .error er
      | .ok s1 => .ok (completeCheck args s1)

/-- Recognizer for the `MalformedArchive` ("invalid package filename")
outcome of a loop iteration. -/
def isMalformed : Except UpError (UpState × Option Dispatch) → Bool
  | .error (.malformedArchive _) => true
  | _ => false

/-- A filesystem operation attempted by a write task. -/
inductive FsOp where
  | createDirAll (path : String)
  | writeFile (path : String) (content : String)
deriving DecidableEq, Repr

/-- Failures of a write task. -/
inductive TaskErr where
  | invalidRoot
  | ioError (op : FsOp)
deriving DecidableEq, Repr

/-- Outcome of one spawned task: the filesystem operations it attempted in
order, its result, and whether its semaphore permit was released.  In Rust
the `OwnedSemaphorePermit` is dropped on every exit path (normal return and
`?` early return alike), which is why every branch of the model records
`permit_released := true`. -/
structure TaskResult where
  ops : List FsOp
  result : Except TaskErr Unit
  permit_released : Bool
deriving Repr

/-- Failure injection for the filesystem: which operations succeed. -/
structure FsOracle where
  dirOk : String → Bool
  writeOk : String → Bool

/-- The oracle under which every filesystem operation succeeds. -/
def fsAllOk : FsOracle :=
  { dirOk := fun _ => true, writeOk := fun _ => true }

/-- Rust `PathBuf::join` for the relative paths this program produces. -/
def path_join (base p : String) : String :=
  base ++ "/" ++ p

/-- Rust `Path::parent`: the path without its final component (`none` for an
empty path, `some ""` for a single-component path). -/
def path_parent (s : String) : Option String :=
  if path_components s = [] then none
  else some (join_components (path_components s).dropLast)

/-- Shallow embedding of `extract_task` (src/main.rs lines 153-173): join the
base path, take its parent (failing with `invalid root path` if absent),
`create_dir_all` the parent, `write` the asset bytes, and when meta bytes
were passed, `write` them to the sibling `<path>.meta` file.  Each `?` is a
branch that stops before attempting the remaining operations; the permit is
released on every branch (RAII drop). -/
def extract_task (fs : FsOracle) (base_path asset_path : String)
    (asset_bytes : String) (asset_meta_bytes : Option String) : TaskResult :=
  match path_parent (path_join base_path asset_path) with
  | none => { ops := [], result := .error .invalidRoot, permit_released := true }
  | some asset_dir =>
    if fs.dirOk asset_dir = false then
      { ops := [.createDirAll asset_dir],
        result := .error (.ioError (.createDirAll asset_dir)), permit_released := true }
    else if fs.writeOk (path_join base_path asset_path) = false then
      { ops := [.createDirAll asset_dir,
                .writeFile (path_join base_path asset_path) asset_bytes],
        result := .error (.ioError (.writeFile (path_join base_path asset_path) asset_bytes)),
        permit_released := true }
    else
      match asset_meta_bytes with
      | none =>
        { ops := [.createDirAll asset_dir,
                  .writeFile (path_join base_path asset_path) asset_bytes],
          result := .ok (), permit_released := true }
      | some meta_bytes =>
        if fs.writeOk (path_join base_path (asset_path ++ ".meta")) = false then
          { ops := [.createDirAll asset_dir,
                    .writeFile (path_join base_path asset_path) asset_bytes,
                    .writeFile (path_join base_path (asset_path ++ ".meta")) meta_bytes],
            result := .error (.ioError
              (.writeFile (path_join base_path (asset_path ++ ".meta")) meta_bytes)),
            permit_released := true }
        else
          { ops := [.createDirAll asset_dir,
                    .writeFile (path_join base_path asset_path) asset_bytes,
                    .writeFile (path_join base_path (asset_path ++ ".meta")) meta_bytes],
            result := .ok (), permit_released := true }

/-- The task spawned in dry-run mode (src/main.rs lines 124-127): it only
drops the permit, touching no file. -/
def dryTask : TaskResult :=
  { ops := [], result := .ok (), permit_released := true }

/-- Whole-run accumulator: filesystem trace of all spawned tasks, and the
ledger of permit acquisitions and releases by those tasks. -/
structure RunResult where
  fsOps : List FsOp
  acquired : Nat
  released : Nat
deriving DecidableEq, Repr

/-- The task spawned for a dispatched payload (src/main.rs lines 123-136):
in dry-run mode an async block that only drops the permit, otherwise
`extract_task` on the payload. -/
def spawnedTask (args : Arguments) (fs : FsOracle) (d : Dispatch) : TaskResult :=
  if args.dry = true then dryTask
  else extract_task fs args.root_directory d.asset_path d.asset_bytes d.asset_meta

/-- The decode loop over all archive entries, threading the assembler state.
At each dispatch the loop acquires one permit and spawns a task; the spawned
task's trace and its permit release are folded into the accumulator (task
completion order does not affect either). -/
def runLoop (args : Arguments) (fs : FsOracle) :
    List UpEntry → UpState → RunResult → Except UpError RunResult
  | [], _, acc => .ok acc
  | e :: rest, s, acc =>
    match step args s e with
    | .error er => .error er
    | .ok (s', none) => runLoop args fs rest s' acc
    | .ok (s', some d) =>
      runLoop args fs rest s'
        { fsOps := acc.fsOps ++ (spawnedTask args fs d).ops,
          acquired := acc.acquired + 1,
          released := acc.released +
            (if (spawnedTask args fs d).permit_released = true then 1 else 0) }

/-- A whole run of `main`'s decode loop from the initial state. -/
def runMain (args : Arguments) (fs : FsOracle) (entries : List UpEntry) :
    Except UpError RunResult :=
  runLoop args fs entries initState { fsOps := [], acquired := 0, released := 0 }

/-- The semaphore, as its count of currently available permits. -/
structure Sem where
  permits : Nat
deriving DecidableEq, Repr

/-- Pool size `Semaphore::new(args.max_concurrency + 1)` (src/main.rs line 65). -/
def semCapacity (args : Arguments) : Nat :=
  args.max_concurrency + 1

/-- Acquisition `acquire_many_owned(n)`: succeeds exactly when `n` permits
are available. -/
def acquireMany (n : Nat) (s : Sem) : Option Sem :=
  if n ≤ s.permits then some ⟨s.permits - n⟩ else none

/-- Dropping a permit returns it to the pool. -/
def semRelease (s : Sem) : Sem :=
  ⟨s.permits + 1⟩

/-- The completion barrier (src/main.rs lines 145-148): acquire all
`max_concurrency + 1` permits at once. -/
def finalBarrier (args : Arguments) (s : Sem) : Option Sem :=
  acquireMany (semCapacity args) s

/-- Reachability invariant of the decode loop, established by every `step`:
either the active grouping path is empty (the next entry is a boundary), or
the record is incomplete, or its logical path does not resolve.  It rules out
a completion-check dispatch firing on a member that did not change the record. -/
def LoopInv (args : Arguments) (s : UpState) : Prop :=
  s.pfx = "" ∨ allMet s = false ∨ resolvePath args.pfx s.asset_path = none

/-- Recognizer for a successful task result. -/
def resultOk : Except TaskErr Unit → Bool
  | .ok _ => true
  | .error _ => false

/-- Whether an operation trace contains a file write to path `p`. -/
def writesTo (ops : List FsOp) (p : String) : Bool :=
  ops.any fun op =>
    match op with
    | .writeFile q _ => q == p
    | _ => false

/-- Concrete arguments used by the spec's worked example: extract into
`out/` with `include_meta = true`, no filter, not a dry run. -/
def argsEx : Arguments :=
  { root_directory := "out", pfx := none, meta := true, dry := false, max_concurrency := 256 }

/-- The worked example's arguments with `dry_run = true`. -/
def argsDry : Arguments :=
  { argsEx with dry := true }

/-- The worked example's arguments with a filter no logical path is under. -/
def argsF : Arguments :=
  { argsEx with pfx := some "zzz" }

/-- The spec's worked example archive: two groups `a1/` and `a2/`, each with
`asset`, `asset.meta` and `pathname` members. -/
def entriesEx : List UpEntry :=
  [ ⟨"a1/", ""⟩, ⟨"a1/asset", "hello"⟩, ⟨"a1/asset.meta", "m1"⟩, ⟨"a1/pathname", "foo/bar.txt"⟩,
    ⟨"a2/", ""⟩, ⟨"a2/asset", "world"⟩, ⟨"a2/asset.meta", "m2"⟩, ⟨"a2/pathname", "foo/baz.txt"⟩ ]

/-- A loop state inside group `a1/` with data and meta already seen. -/
def sC1 : UpState :=
  { pfx := "a1/", asset_bytes := "hello", asset_meta_bytes := "m1", asset_path := "",
    asset_met := true, asset_meta_met := true, asset_path_met := false }

/-- The `pathname` member of group `a1/`, completing the record in `sC1`. -/
def eC1 : UpEntry :=
  ⟨"a1/pathname", "foo/bar.txt"⟩

/-- The state the loop is left in right after dispatching the record
completed by `eC1`: buffers and active path cleared, but the seen-flags and
the logical path untouched. -/
def sC1' : UpState :=
  { pfx := "", asset_bytes := "", asset_meta_bytes := "", asset_path := "foo/bar.txt",
    asset_met := true, asset_meta_met := true, asset_path_met := true }

/-- The payload dispatched for group `a1/` of the worked example. -/
def dC1 : Dispatch :=
  { asset_path := "foo/bar.txt", asset_bytes := "hello", asset_meta := some "m1" }

/-- The state after the `pathname` member of `sC1` is applied: the record is
complete (all seen-flags true) but the active path and buffers still hold the
group's data.  This is the loop state at the completion check. -/
def sGap : UpState :=
  { pfx := "a1/", asset_bytes := "hello", asset_meta_bytes := "m1",
    asset_path := "foo/bar.txt",
    asset_met := true, asset_meta_met := true, asset_path_met := true }

/-- A fresh in-group state right after the `a1/` boundary entry. -/
def sW : UpState :=
  freshFromPath "a1/"

/-- An oracle whose directory creation always fails. -/
def fsDirFail : FsOracle :=
  { dirOk := fun _ => false, writeOk := fun _ => true }

/-- Helper: `applyMember` fails only with `UnknownMember` of its filename. -/
theorem applyMember_error {s : UpState} {fn c : String} {er : UpError}
    (h : applyMember s fn c = .error er) : er = .unknownMember fn := by
  unfold applyMember at h
  split_ifs at h
  all_goals simp_all

/-- Helper: stripping succeeds whenever the leading-segment test succeeds. -/
theorem str_strip_of_starts {pre s : String} (h : str_starts pre s = true) :
    str_strip pre s = some (String.mk (s.data.drop pre.data.length)) := by
  unfold str_strip
  rw [if_pos h]

/-- Helper: a dispatching completion check clears exactly the active path and
the two byte buffers of the record it dispatched. -/
theorem completeCheck_dispatch {args : Arguments} {s1 s' : UpState} {d : Dispatch}
    (h : completeCheck args s1 = (s', some d)) :
    s' = { s1 with pfx := "", asset_bytes := "", asset_meta_bytes := "" } := by
  unfold completeCheck at h
  split at h
  · split at h
    · exact Option.noConfusion (congrArg Prod.snd h)
    · simp only [Prod.mk.injEq] at h
      exact h.1.symm
  · exact Option.noConfusion (congrArg Prod.snd h)

/-- Helper: with an empty active path, a step is exactly the boundary
transition, installing the entry's path as the new grouping path. -/
theorem step_none_of_empty {args : Arguments} {s : UpState} (e : UpEntry)
    (h : s.pfx = "") : step args s e = .ok (freshFromPath e.path, none) := by
  unfold step
  rw [if_pos (Or.inl h)]

/-- Helper: a dispatching step leaves the loop with an empty active path and
cleared byte buffers. -/
theorem step_dispatch_state {args : Arguments} {s s' : UpState} {e : UpEntry} {d : Dispatch}
    (h : step args s e = .ok (s', some d)) :
    s'.pfx = "" ∧ s'.asset_bytes = "" ∧ s'.asset_meta_bytes = "" := by
  unfold step at h
  split_ifs at h
  · exact Option.noConfusion (congrArg Prod.snd (Except.ok.inj h))
  · split at h
    · exact Except.noConfusion h
    · split at h
      · exact Except.noConfusion h
      · have hc := Except.ok.inj h
        have hs := completeCheck_dispatch hc
        subst hs
        exact ⟨rfl, rfl, rfl⟩

/-- Helper: every successful step establishes the loop invariant, whatever
the incoming state was; together with `loopInv_init` this makes `LoopInv`
hold at the head of every iteration of the decode loop. -/
theorem loopInv_step {args : Arguments} {s s' : UpState} {e : UpEntry} {d : Option Dispatch}
    (h : step args s e = .ok (s', d)) : LoopInv args s' := by
  unfold step at h
  split_ifs at h
  · have h1 : freshFromPath e.path = s' := congrArg Prod.fst (Except.ok.inj h)
    exact h1 ▸ Or.inr (Or.inl rfl)
  · split at h
    · exact Except.noConfusion h
    · split at h
      · exact Except.noConfusion h
      · next s1 ha =>
        have hc := Except.ok.inj h
        unfold completeCheck at hc
        split at hc
        · split at hc
          · next hr =>
            have h1 : s1 = s' := congrArg Prod.fst hc
            subst h1
            exact Or.inr (Or.inr hr)
          · next out hr =>
            have h1 : ({ s1 with pfx := "", asset_bytes := "", asset_meta_bytes := "" } : UpState) = s' := congrArg Prod.fst hc
            subst h1
            exact Or.inl rfl
        · next hm =>
          have h1 : s1 = s' := congrArg Prod.fst hc
          subst h1
          exact Or.inr (Or.inl (by simpa using hm))

/-- Helper: the loop invariant holds at the initial state. -/
theorem loopInv_init (args : Arguments) : LoopInv args initState :=
  Or.inl rfl

/-- Helper: the asset path and its meta sibling are distinct paths. -/
theorem meta_path_ne (base ap : String) :
    path_join base ap = path_join base (ap ++ ".meta") → False := by
  intro h
  have hl := congrArg String.length h
  have h5 : (".meta").length = 5 := rfl
  simp only [path_join, String.length_append, h5] at hl
  omega

/-- Helper: in dry-run mode the spawned task is the permit-dropping block. -/
theorem spawnedTask_dry {args : Arguments} (fs : FsOracle) (d : Dispatch)
    (hd : args.dry = true) : spawnedTask args fs d = dryTask := by
  unfold spawnedTask
  rw [if_pos hd]

/-- Helper: in dry-run mode `runLoop` adds nothing to the filesystem trace
and keeps acquisitions and releases in lockstep. -/
theorem runLoop_dry (args : Arguments) (fs : FsOracle) (hd : args.dry = true) :
    ∀ (entries : List UpEntry) (s : UpState) (acc r : RunResult),
      runLoop args fs entries s acc = .ok r →
      r.fsOps = acc.fsOps ∧ r.acquired + acc.released = r.released + acc.acquired := by
  intro entries
  induction entries with
  | nil =>
    intro s acc r h
    simp only [runLoop, Except.ok.injEq] at h
    subst h
    exact ⟨rfl, Nat.add_comm _ _⟩
  | cons e rest ih =>
    intro s acc r h
    simp only [runLoop] at h
    split at h
    · exact Except.noConfusion h
    · exact ih _ acc r h
    · next s' dd heq =>
      rw [spawnedTask_dry fs dd hd] at h
      have h' := ih _ _ r h
      have hf : r.fsOps = acc.fsOps ++ [] := h'.1
      have h2 : r.acquired + (acc.released + 1) = r.released + (acc.acquired + 1) := h'.2
      rw [List.append_nil] at hf
      exact ⟨hf, by omega⟩

/-- C3: the MalformedArchive branch is unreachable.  For every arguments
value, every loop state and every entry, one iteration of the decode loop
never produces the `invalid package filename` failure: an entry only reaches
the suffix-stripping step when the boundary branch was not taken, i.e. the
active path is non-empty and the entry's path starts with it, and stripping
then always succeeds. -/
theorem malformed_unreachable (args : Arguments) (s : UpState) (e : UpEntry) :
    isMalformed (step args s e) = false := by
  cases hs : step args s e with
  | ok p => rfl
  | error er =>
    unfold step at hs
    split at hs
    · exact Except.noConfusion hs
    · next hb =>
      split at hs
      · next heq =>
        push_neg at hb
        have hsw : str_starts s.pfx e.path = true := by
          cases hx : str_starts s.pfx e.path
          · exact absurd hx hb.2
          · rfl
        rw [str_strip_of_starts hsw] at heq
        exact Option.noConfusion heq
      · split at hs
        · next er2 ha =>
          have h1 : er2 = er := Except.error.inj hs
          subst h1
          rw [applyMember_error ha]
          rfl
        · exact Except.noConfusion hs

/-- C6: every spawned write task releases its concurrency slot
unconditionally when it finishes.  Whatever the filesystem oracle does —
directory creation or either write may fail — `extract_task` records its
permit as released on every control path, because the Rust permit is an
owned RAII value dropped on both normal return and every early return. -/
theorem task_always_releases_permit (fs : FsOracle) (base_path asset_path : String)
    (asset_bytes : String) (asset_meta_bytes : Option String) :
    (extract_task fs base_path asset_path asset_bytes asset_meta_bytes).permit_released = true := by
  unfold extract_task
  repeat' split
  all_goals rfl

/-- C2: the completion barrier.  The pool has `max_concurrency + 1` permits
(src/main.rs line 65); while `k` dispatched write tasks still hold a permit
and the flow holds its own, `max_concurrency - k` permits are available.
After the flow releases its own permit, the final
`acquire_many_owned(max_concurrency + 1)` (lines 145-148) succeeds exactly
when `k = 0`: it cannot return while any spawned task still holds its slot. -/
theorem barrier_requires_all_released (args : Arguments) (k : Nat)
    (hk : k ≤ args.max_concurrency) :
    ((finalBarrier args (semRelease ⟨semCapacity args - 1 - k⟩)).isSome = true) ↔ k = 0 := by
  unfold finalBarrier acquireMany semRelease semCapacity
  dsimp only
  split_ifs with hc
  · simp only [Option.isSome_some, true_iff]
    omega
  · simp only [Option.isSome_none, Bool.false_eq_true, false_iff]
    omega

/-- Witness for C2 at a concrete pool size and `k = 0`. -/
theorem barrier_requires_all_released_witness :
    ((finalBarrier argsEx (semRelease ⟨semCapacity argsEx - 1 - 0⟩)).isSome = true) ↔ 0 = 0 :=
  barrier_requires_all_released argsEx 0 (by decide)

/-- C4: the Path Resolver.  Without a filter the logical path is returned
verbatim; with a filter it is stripped as a path-component-aware prefix
(stripping succeeds exactly when the filter's components lead the logical
path's components, and `"foo/ba"` — a raw-string prefix of `"foo/bar.txt"`
but not a component prefix — is rejected); and when stripping fails the
completion check skips the record, producing no dispatch and no error. -/
theorem resolver_spec :
    (∀ lp, resolvePath none lp = some lp) ∧
    (∀ f lp, is_pfx_comps (path_components f) (path_components lp) = true →
       resolvePath (some f) lp =
         some (join_components ((path_components lp).drop (path_components f).length))) ∧
    (∀ f lp, is_pfx_comps (path_components f) (path_components lp) = false →
       resolvePath (some f) lp = none) ∧
    (str_starts "foo/ba" "foo/bar.txt" = true ∧
       resolvePath (some "foo/ba") "foo/bar.txt" = none) ∧
    (∀ args s, allMet s = true → resolvePath args.pfx s.asset_path = none →
       completeCheck args s = (s, none)) := by
  refine ⟨fun lp => rfl, fun f lp h => ?_, fun f lp h => ?_, ⟨rfl, rfl⟩, fun args s h1 h2 => ?_⟩
  · show path_strip f lp = _
    unfold path_strip
    rw [if_pos h]
  · show path_strip f lp = none
    unfold path_strip
    rw [if_neg]
    rw [h]
    simp
  · unfold completeCheck
    rw [if_pos h1, h2]

/-- Witness for C4: a successful component strip, a failed strip, and a
record skipped by the completion check without error or dispatch. -/
theorem resolver_spec_witness :
    resolvePath (some "foo") "foo/bar.txt" =
      some (join_components ((path_components "foo/bar.txt").drop
        (path_components "foo").length)) ∧
    resolvePath (some "zzz") "foo/bar.txt" = none ∧
    completeCheck argsF sC1' = (sC1', none) :=
  ⟨resolver_spec.2.1 "foo" "foo/bar.txt" rfl,
   resolver_spec.2.2.1 "zzz" "foo/bar.txt" rfl,
   resolver_spec.2.2.2.2 argsF sC1' rfl rfl⟩

/-- C1 counterexample, two facets at the same completing entry of group
`a1/` (the `pathname` member that makes all three seen-flags true).  First,
without a filter the record is dispatched but the successor state still has
all three seen-flags true and still carries the logical path: the
in-progress record was not reset to empty/incomplete, only the active path
and the two byte buffers were cleared.  Second, under a filter the record's
logical path is not under (`--prefix zzz`), the same completing entry emits
nothing at all and leaves the whole accumulator untouched — the active path
stays `"a1/"` and the data buffer stays `"hello"` — so the next entry is not
treated as a fresh group boundary if it shares the old path. -/
theorem record_not_reset_at_dispatch :
    (step argsEx sC1 eC1 = .ok (sC1', some dC1) ∧
       allMet sC1' = true ∧ sC1'.asset_path = "foo/bar.txt") ∧
    (step argsF sC1 eC1 = .ok (sGap, none) ∧
       sGap.pfx = "a1/" ∧ sGap.asset_bytes = "hello" ∧ allMet sGap = true) :=
  ⟨⟨rfl, rfl, rfl⟩, ⟨rfl, rfl, rfl, rfl⟩⟩

/-- C1 amended: for every entry whose member update makes all three
seen-flags true, the completion check runs, and what happens depends on path
resolution.  When the logical path resolves (no filter, or the filter
strips), the loop emits the assembled record downstream and clears the
active path and the data/meta byte buffers — the seen-flags and the logical
path are left as they are — and because the active path is now empty the
next entry is unconditionally treated as a fresh group boundary (which then
resets the whole record) even if its path shares the old group's path.  When
the filter rejects the logical path, nothing is emitted and the whole
accumulator, active path and buffers included, is left untouched. -/
theorem completion_emit_and_reset (args : Arguments) (s : UpState) (e : UpEntry)
    (fn : String) (s1 : UpState)
    (hp : s.pfx ≠ "")
    (hstrip : str_strip s.pfx e.path = some fn)
    (ha : applyMember s fn e.content = .ok s1)
    (hall : allMet s1 = true) :
    (∀ out, resolvePath args.pfx s1.asset_path = some out →
       step args s e =
         .ok ({ s1 with pfx := "", asset_bytes := "", asset_meta_bytes := "" },
              some { asset_path := out, asset_bytes := s1.asset_bytes,
                     asset_meta := if args.meta = true then some s1.asset_meta_bytes else none }) ∧
       (∀ e2, step args { s1 with pfx := "", asset_bytes := "", asset_meta_bytes := "" } e2 =
          .ok (freshFromPath e2.path, none))) ∧
    (resolvePath args.pfx s1.asset_path = none →
       step args s e = .ok (s1, none)) := by
  have hsw : str_starts s.pfx e.path = true := by
    cases hx : str_starts s.pfx e.path
    · unfold str_strip at hstrip
      rw [if_neg (by simp [hx])] at hstrip
      exact Option.noConfusion hstrip
    · rfl
  have hne : ¬(s.pfx = "" ∨ str_starts s.pfx e.path = false) := by
    rintro (h | h)
    exacts [hp h, by rw [hsw] at h; cases h]
  constructor
  · intro out hr
    constructor
    · unfold step
      rw [if_neg hne]
      simp only [hstrip, ha]
      unfold completeCheck
      rw [if_pos hall]
      simp only [hr]
    · intro e2
      exact step_none_of_empty e2 rfl
  · intro hr
    unfold step
    rw [if_neg hne]
    simp only [hstrip, ha]
    unfold completeCheck
    rw [if_pos hall]
    simp only [hr]

/-- Witness for the amended C1 at the completing `pathname` entry of group
`a1/`, in both branches: without a filter the record is emitted, the active
path and buffers are cleared, and a follow-up entry that deliberately shares
the old `a1/` path is still treated as a boundary; with the filter
`--prefix zzz` the same entry emits nothing and leaves the state untouched. -/
theorem completion_emit_and_reset_witness :
    (step argsEx sC1 eC1 =
       .ok ({ sGap with pfx := "", asset_bytes := "", asset_meta_bytes := "" },
            some { asset_path := "foo/bar.txt", asset_bytes := sGap.asset_bytes,
                   asset_meta := if argsEx.meta = true then some sGap.asset_meta_bytes else none }) ∧
     step argsEx { sGap with pfx := "", asset_bytes := "", asset_meta_bytes := "" }
         ⟨"a1/preview.png", ""⟩ = .ok (freshFromPath "a1/preview.png", none)) ∧
    step argsF sC1 eC1 = .ok (sGap, none) := by
  have h1 := completion_emit_and_reset argsEx sC1 eC1 "pathname" sGap (by decide) rfl rfl rfl
  have h2 := completion_emit_and_reset argsF sC1 eC1 "pathname" sGap (by decide) rfl rfl rfl
  obtain ⟨ha, hb⟩ := h1.1 "foo/bar.txt" rfl
  exact ⟨⟨ha, hb ⟨"a1/preview.png", ""⟩⟩, h2.2 rfl⟩

/-- C5: inside an active group (non-empty active path, suffix-stripping
succeeded), a suffix outside the four recognized names makes the iteration
fail with `UnknownMember` carrying that suffix, and a `preview.png` suffix
leaves the whole loop state unchanged — no flag and no field is touched —
in every state satisfying the loop invariant (which `loopInv_init` and
`loopInv_step` establish for all reachable states). -/
theorem unknown_member_and_preview :
    (∀ (args : Arguments) (s : UpState) (e : UpEntry) (fn : String),
       s.pfx ≠ "" → str_strip s.pfx e.path = some fn →
       fn ≠ "asset" → fn ≠ "asset.meta" → fn ≠ "pathname" → fn ≠ "preview.png" →
       step args s e = .error (.unknownMember fn)) ∧
    (∀ (args : Arguments) (s : UpState) (e : UpEntry),
       LoopInv args s → s.pfx ≠ "" → str_strip s.pfx e.path = some "preview.png" →
       step args s e = .ok (s, none)) := by
  constructor
  · intro args s e fn hp hstrip h1 h2 h3 h4
    have hsw : str_starts s.pfx e.path = true := by
      cases hx : str_starts s.pfx e.path
      · unfold str_strip at hstrip
        rw [if_neg (by simp [hx])] at hstrip
        exact Option.noConfusion hstrip
      · rfl
    have ha : applyMember s fn e.content = .error (.unknownMember fn) := by
      unfold applyMember
      rw [if_neg h1, if_neg h2, if_neg h3, if_neg h4]
    unfold step
    rw [if_neg (by rintro (h | h); exacts [hp h, by rw [hsw] at h; cases h])]
    simp only [hstrip, ha]
  · intro args s e hinv hp hstrip
    have hsw : str_starts s.pfx e.path = true := by
      cases hx : str_starts s.pfx e.path
      · unfold str_strip at hstrip
        rw [if_neg (by simp [hx])] at hstrip
        exact Option.noConfusion hstrip
      · rfl
    have ha : applyMember s "preview.png" e.content = .ok s := by
      unfold applyMember
      rw [if_neg (by decide), if_neg (by decide), if_neg (by decide), if_pos rfl]
    have hcc : completeCheck args s = (s, none) := by
      unfold completeCheck
      rcases hinv with h | h | h
      · exact absurd h hp
      · rw [if_neg (by simp [h])]
      · by_cases hm : allMet s = true
        · rw [if_pos hm, h]
        · rw [if_neg hm]
    unfold step
    rw [if_neg (by rintro (h | h); exacts [hp h, by rw [hsw] at h; cases h])]
    simp only [hstrip, ha, hcc]

/-- Witness for C5 inside group `a1/`: an unrecognized member fails with
`UnknownMember "garbage"`, and a `preview.png` member leaves the fresh
in-group state exactly as it was. -/
theorem unknown_member_and_preview_witness :
    step argsEx sW ⟨"a1/garbage", "x"⟩ = .error (.unknownMember "garbage") ∧
    step argsEx sW ⟨"a1/preview.png", "img"⟩ = .ok (sW, none) :=
  ⟨unknown_member_and_preview.1 argsEx sW ⟨"a1/garbage", "x"⟩ "garbage"
     (by decide) rfl (by decide) (by decide) (by decide) (by decide),
   unknown_member_and_preview.2 argsEx sW ⟨"a1/preview.png", "img"⟩
     (Or.inr (Or.inl rfl)) (by decide) rfl⟩

/-- C7: with `dry_run = true` the full decode, grouping, resolution and slot
accounting still run, but no write-task body executes: whatever the entries
and the filesystem oracle, a successfully completing run performs no
filesystem operation at all and every acquired slot has been released. -/
theorem dry_run_no_writes (args : Arguments) (fs : FsOracle) (entries : List UpEntry)
    (r : RunResult) (hd : args.dry = true) (h : runMain args fs entries = .ok r) :
    r.fsOps = [] ∧ r.acquired = r.released := by
  have h' := runLoop_dry args fs hd entries initState ⟨[], 0, 0⟩ r h
  have hf : r.fsOps = [] := h'.1
  have h2 : r.acquired + 0 = r.released + 0 := h'.2
  exact ⟨hf, by omega⟩

/-- Witness for C7: the worked example archive in dry-run mode completes
with an empty filesystem trace and a balanced permit ledger. -/
theorem dry_run_no_writes_witness :
    (⟨[], 2, 2⟩ : RunResult).fsOps = [] ∧
    (⟨[], 2, 2⟩ : RunResult).acquired = (⟨[], 2, 2⟩ : RunResult).released :=
  dry_run_no_writes argsDry fsAllOk entriesEx ⟨[], 2, 2⟩ rfl rfl

/-- C9: at most one dispatch per group.  A dispatching iteration leaves the
active path empty, and from that state the very next iteration is forced to
be a group boundary: it dispatches nothing and resets the completion flags,
so the completion condition cannot fire again before a new boundary installs
a fresh accumulator — even though the seen-flags were not cleared at
dispatch time. -/
theorem one_dispatch_per_group (args : Arguments) (s : UpState) (e : UpEntry)
    (s' : UpState) (d : Dispatch) (h : step args s e = .ok (s', some d)) :
    s'.pfx = "" ∧
    (∀ (e2 : UpEntry) (s2 : UpState) (d2 : Option Dispatch),
       step args s' e2 = .ok (s2, d2) → d2 = none ∧ allMet s2 = false) := by
  have h1 := (step_dispatch_state h).1
  refine ⟨h1, fun e2 s2 d2 h2 => ?_⟩
  rw [step_none_of_empty e2 h1] at h2
  have hp := Except.ok.inj h2
  have hfst : freshFromPath e2.path = s2 := congrArg Prod.fst hp
  have hsnd : (none : Option Dispatch) = d2 := congrArg Prod.snd hp
  subst hfst
  subst hsnd
  exact ⟨rfl, rfl⟩

/-- Witness for C9 at the concrete dispatch of group `a1/`, followed by the
boundary entry of group `a2/`. -/
theorem one_dispatch_per_group_witness :
    sC1'.pfx = "" ∧
    ((none : Option Dispatch) = none ∧ allMet (freshFromPath "a2/") = false) := by
  have h := one_dispatch_per_group argsEx sC1 eC1 sC1' dC1 rfl
  exact ⟨h.1, h.2 ⟨"a2/", ""⟩ (freshFromPath "a2/") none rfl⟩

/-- C8: the write task's output.  When every filesystem operation succeeds,
a task for a dispatched record creates all parent directories of the base
directory joined with the resolved path, writes the asset bytes there, and
writes the meta bytes to the sibling path with `.meta` appended exactly when
meta bytes were passed (i.e. when metadata extraction is enabled); and on
the spec's two-group example archive with `include_meta = true` the whole
run performs exactly the six operations producing `out/foo/bar.txt`,
`out/foo/bar.txt.meta`, `out/foo/baz.txt` and `out/foo/baz.txt.meta` with
the expected contents. -/
theorem write_task_output :
    (∀ (base ap bytes : String) (mb : Option String) (dir : String),
       path_parent (path_join base ap) = some dir →
       extract_task fsAllOk base ap bytes mb =
         { ops := [.createDirAll dir, .writeFile (path_join base ap) bytes] ++
             (match mb with
              | some m => [.writeFile (path_join base (ap ++ ".meta")) m]
              | none => []),
           result := .ok (), permit_released := true }) ∧
    runMain argsEx fsAllOk entriesEx =
      .ok { fsOps := [.createDirAll "out/foo", .writeFile "out/foo/bar.txt" "hello",
                      .writeFile "out/foo/bar.txt.meta" "m1", .createDirAll "out/foo",
                      .writeFile "out/foo/baz.txt" "world", .writeFile "out/foo/baz.txt.meta" "m2"],
            acquired := 2, released := 2 } := by
  constructor
  · intro base ap bytes mb dir hp
    cases mb with
    | none => simp [extract_task, hp, fsAllOk]
    | some m => simp [extract_task, hp, fsAllOk]
  · rfl

/-- Witness for C8's general part at the first record of the worked example. -/
theorem write_task_output_witness :
    extract_task fsAllOk "out" "foo/bar.txt" "hello" (some "m1") =
      { ops := [.createDirAll "out/foo",
                .writeFile (path_join "out" "foo/bar.txt") "hello"] ++
          (match (some "m1" : Option String) with
           | some m => [.writeFile (path_join "out" ("foo/bar.txt" ++ ".meta")) m]
           | none => []),
        result := .ok (), permit_released := true } :=
  write_task_output.1 "out" "foo/bar.txt" "hello" (some "m1") "out/foo" rfl

/-- C10: within one write task the `.meta` sibling write happens only after
directory creation and the asset write both succeeded.  If either of those
earlier steps fails, the task's result is a failure and its operation trace
contains no write to the `.meta` sibling path. -/
theorem meta_write_ordering (fs : FsOracle) (base ap bytes : String) (mb : Option String)
    (dir : String) (hp : path_parent (path_join base ap) = some dir)
    (hfail : fs.dirOk dir = false ∨ fs.writeOk (path_join base ap) = false) :
    resultOk (extract_task fs base ap bytes mb).result = false ∧
    writesTo (extract_task fs base ap bytes mb).ops (path_join base (ap ++ ".meta")) = false := by
  have hne : (path_join base ap == path_join base (ap ++ ".meta")) = false := by
    rw [beq_eq_false_iff_ne]
    exact fun h => meta_path_ne base ap h
  simp only [extract_task, hp]
  cases hd : fs.dirOk dir with
  | false =>
    rw [if_pos rfl]
    exact ⟨rfl, rfl⟩
  | true =>
    have hw : fs.writeOk (path_join base ap) = false := by
      rcases hfail with h | h
      · rw [hd] at h
        cases h
      · exact h
    rw [if_neg (by simp), if_pos hw]
    refine ⟨rfl, ?_⟩
    simp [writesTo, hne]

/-- Witness for C10: a task whose directory creation fails returns a failure
and never attempts the `.meta` write. -/
theorem meta_write_ordering_witness :
    resultOk (extract_task fsDirFail "out" "foo/bar.txt" "hello" (some "m1")).result = false ∧
    writesTo (extract_task fsDirFail "out" "foo/bar.txt" "hello" (some "m1")).ops
      (path_join "out" ("foo/bar.txt" ++ ".meta")) = false :=
  meta_write_ordering fsDirFail "out" "foo/bar.txt" "hello" (some "m1") "out/foo" rfl
    (Or.inl rfl)
